import Mathlib

/-!
Shallow embedding of `src/app.py` (FX trade analysis, streamlit/pandas app).

The core pipeline `load_and_process_data` reads a list of CSV sources
(UTF-8 first, cp932 fallback), concatenates them, deduplicates on the
取引番号 (transaction id) column keeping the first occurrence, coerces the
numeric columns 決済損益 / 数量 (comma-stripped, unparseable → 0), parses
the 約定日時 timestamp column (failure is fatal), partitions into
新規 (open) and 決済 (close) rows, inner-joins each close to the open whose
取引番号 equals the close's 決済対象取引番号, and returns the merged table
sorted ascending by the exit timestamp.  `calculate_kpis` computes win
rate, risk/reward (possibly infinite), max drawdown, average holding
time and total profit over a list of round-trip trades, returning an
absent value on empty input.

Numbers are modelled as ℚ (pandas numeric values), timestamps as a Nat
encoding of a calendar instant, and fallible steps as Option.
-/

namespace FxApp

/-- One raw CSV row, all fields as text (the source reads with dtype=str). -/
structure RawRow where
  transaction_id : String        -- 取引番号
  linked_transaction_id : String -- 決済対象取引番号
  kind : String                  -- 区分 (新規 / 決済)
  executed_at : String           -- 約定日時
  instrument : String            -- 通貨ペア
  side : String                  -- 売買
  quantity : String              -- 数量
  realized_profit : String       -- 決済損益
deriving DecidableEq, Repr

/-- A parsed tabular source: its rows, and whether the 取引番号 column exists
(the one column whose absence the code checks explicitly). -/
structure RawTable where
  hasTransactionId : Bool
  rows : List RawRow
deriving DecidableEq, Repr

/-- An uploaded byte source: what it decodes to under UTF-8 and under cp932
(none = that decoding fails). -/
structure FileSource where
  utf8 : Option RawTable
  cp932 : Option RawTable
deriving DecidableEq, Repr

/-- Reading one source: try UTF-8, on decode failure retry with cp932
(app.py lines 26-31). -/
def readSource (f : FileSource) : Option RawTable :=
  match f.utf8 with
  | some t => some t
  | none => f.cp932

/-- Read every source; the loop aborts with an absent result as soon as one
source fails (app.py lines 23-36). -/
def readAll : List FileSource → Option (List RawTable)
  | [] => some []
  | f :: fs =>
    match readSource f, readAll fs with
    | some t, some ts => some (t :: ts)
    | _, _ => none

/-- Split a character list at every occurrence of a separator. -/
def splitOnChar (sep : Char) : List Char → List (List Char)
  | [] => [[]]
  | c :: cs =>
    match splitOnChar sep cs with
    | [] => [[c]]
    | g :: gs => if c = sep then [] :: g :: gs else (c :: g) :: gs

/-- Accumulate a digit string into a natural number. -/
def digitsToNat (cs : List Char) : Nat :=
  cs.foldl (fun a c => a * 10 + (c.toNat - 48)) 0

/-- Parse a nonempty all-digit character list. -/
def parseNatDigits (cs : List Char) : Option Nat :=
  if cs ≠ [] ∧ cs.all Char.isDigit then some (digitsToNat cs) else none

/-- Parse a 約定日時 value of the form YYYY-MM-DD HH:MM:SS into a Nat
instant (the embedding of pd.to_datetime; failure is an absent result,
which the pipeline treats as fatal). -/
def parseTimestamp (s : String) : Option Nat :=
  match splitOnChar ' ' s.data with
  | [d, t] =>
    match splitOnChar '-' d, splitOnChar ':' t with
    | [ys, ms, ds], [hs, mis, ss] => do
      let y ← parseNatDigits ys
      let mo ← parseNatDigits ms
      let da ← parseNatDigits ds
      let h ← parseNatDigits hs
      let mi ← parseNatDigits mis
      let se ← parseNatDigits ss
      if 1 ≤ mo ∧ mo ≤ 12 ∧ 1 ≤ da ∧ da ≤ 31 ∧ h < 24 ∧ mi < 60 ∧ se < 60 then
        some ((((y * 372 + (mo - 1) * 31 + (da - 1)) * 24 + h) * 60 + mi) * 60 + se)
      else none
    | _, _ => none
  | _ => none

/-- Remove every comma, the embedding of str.replace of a comma by nothing
(app.py lines 56, 58). -/
def stripCommas (s : String) : String :=
  String.mk (s.data.filter (fun c => c ≠ ','))

/-- Parse an unsigned decimal numeral with an optional fractional part. -/
def parseUnsignedRat (cs : List Char) : Option ℚ :=
  let intPart := cs.takeWhile Char.isDigit
  let rest := cs.dropWhile Char.isDigit
  match rest with
  | [] => if intPart = [] then none else some (digitsToNat intPart : ℚ)
  | '.' :: frac =>
    if frac.all Char.isDigit ∧ ¬(intPart = [] ∧ frac = []) then
      some ((digitsToNat intPart : ℚ) + (digitsToNat frac : ℚ) / (10 ^ frac.length : ℚ))
    else none
  | _ => none

/-- Parse a signed decimal numeral, the embedding of pd.to_numeric on one
value: an absent result is the NaN that errors=coerce produces. -/
def parseSignedRat (s : String) : Option ℚ :=
  match s.data with
  | '-' :: rest => (parseUnsignedRat rest).map (fun q => -q)
  | '+' :: rest => parseUnsignedRat rest
  | cs => parseUnsignedRat cs

/-- pd.to_numeric(col.str.replace(comma, empty), errors=coerce).fillna(0)
applied to one value (app.py lines 56, 58). -/
def coerceNumeric (s : String) : ℚ :=
  (parseSignedRat (stripCommas s)).getD 0

/-- A row after type conversion (step 4 of the source). -/
structure Record where
  transaction_id : String
  linked_transaction_id : String
  kind : String
  executed_at : Nat
  instrument : String
  side : String
  quantity : ℚ
  realized_profit : ℚ
deriving DecidableEq, Repr

/-- Normalize one row: numeric columns are coerced (never fatal), the
timestamp column must parse (pd.to_datetime raises otherwise, which the
source catches and turns into an absent result). -/
def normalizeRow (r : RawRow) : Option Record :=
  match parseTimestamp r.executed_at with
  | none => none
  | some t =>
    some { transaction_id := r.transaction_id
           linked_transaction_id := r.linked_transaction_id
           kind := r.kind
           executed_at := t
           instrument := r.instrument
           side := r.side
           quantity := coerceNumeric r.quantity
           realized_profit := coerceNumeric r.realized_profit }

/-- Normalize all rows; any timestamp failure aborts the whole batch. -/
def normalizeRows : List RawRow → Option (List Record)
  | [] => some []
  | r :: rs =>
    match normalizeRow r, normalizeRows rs with
    | some a, some l => some (a :: l)
    | _, _ => none

/-- drop_duplicates with keep=first, walking the rows with the set of
transaction ids already seen: a row whose id was seen is dropped. -/
def dropDuplicatesAux (seen : List String) : List RawRow → List RawRow
  | [] => []
  | r :: rs =>
    if r.transaction_id ∈ seen then dropDuplicatesAux seen rs
    else r :: dropDuplicatesAux (r.transaction_id :: seen) rs

/-- drop_duplicates on the 取引番号 column with keep=first (app.py line 51):
the first row of each transaction id survives, later ones are dropped. -/
def dropDuplicates (l : List RawRow) : List RawRow :=
  dropDuplicatesAux [] l

/-- Year-month bucket of an instant (strftime of the %Y-%m form). -/
def monthKey (t : Nat) : Nat × Nat :=
  let days := t / 86400
  (days / 372, (days % 372) / 31 + 1)

/-- One matched open/close pair, the columns of merged_df the app uses. -/
structure RoundTripTrade where
  exit_transaction_id : String   -- 取引番号_exit
  entry_transaction_id : String  -- 取引番号_entry
  exit_time : Nat                -- 約定日時_exit
  entry_time : Nat               -- 約定日時_entry
  holding_time : Int             -- 約定日時_exit - 約定日時_entry
  profit : ℚ                     -- 決済損益_exit
  month : Nat × Nat              -- strftime %Y-%m of 約定日時_exit
  pair : String                  -- 通貨ペア_entry
  side : String                  -- 売買_entry
  quantity : ℚ                   -- 数量_exit
deriving DecidableEq, Repr

/-- Build the merged row for one exit record and its matched entry record
(app.py lines 78-87). -/
def mkTrade (e o : Record) : RoundTripTrade :=
  { exit_transaction_id := e.transaction_id
    entry_transaction_id := o.transaction_id
    exit_time := e.executed_at
    entry_time := o.executed_at
    holding_time := (e.executed_at : Int) - (o.executed_at : Int)
    profit := e.realized_profit
    month := monthKey e.executed_at
    pair := o.instrument
    side := o.side
    quantity := e.quantity }

/-- The open rows: 区分 equals 新規 (app.py line 65). -/
def entryRecords (rs : List Record) : List Record :=
  rs.filter (fun r => r.kind == "新規")

/-- The close rows: 区分 equals 決済 (app.py line 66). -/
def exitRecords (rs : List Record) : List Record :=
  rs.filter (fun r => r.kind == "決済")

/-- The inner merge of exits against entries on
決済対象取引番号 = 取引番号 (app.py lines 69-76); pandas keeps left-key
order, so it is a flatMap over the exit rows. -/
def matchTrades (rs : List Record) : List RoundTripTrade :=
  (exitRecords rs).flatMap (fun e =>
    ((entryRecords rs).filter
        (fun o => o.transaction_id == e.linked_transaction_id)).map
      (fun o => mkTrade e o))

/-- Comparison used to sort the output table by 約定日時_exit. -/
def exitTimeLe (a b : RoundTripTrade) : Prop :=
  a.exit_time ≤ b.exit_time

instance : DecidableRel exitTimeLe :=
  fun a b => Nat.decLe a.exit_time b.exit_time

instance : IsTotal RoundTripTrade exitTimeLe :=
  ⟨fun a b => Nat.le_total a.exit_time b.exit_time⟩

instance : IsTrans RoundTripTrade exitTimeLe :=
  ⟨fun _ _ _ hab hbc => Nat.le_trans hab hbc⟩

/-- The embedding of sort_values on 約定日時_exit: sort ascending by exit
time (the source only relies on the ordering, not on a sort algorithm). -/
def sortByExitTime (l : List RoundTripTrade) : List RoundTripTrade :=
  List.insertionSort exitTimeLe l

/-- Match and sort ascending by exit time (app.py line 89). -/
def processRecords (rs : List Record) : List RoundTripTrade :=
  sortByExitTime (matchTrades rs)

/-- The whole pipeline of load_and_process_data (app.py lines 13-93):
absent result on an empty upload, on an undecodable source, on a missing
取引番号 column, or on a timestamp that fails to parse. -/
def load_and_process_data (files : List FileSource) : Option (List RoundTripTrade) :=
  if files = [] then none
  else
    match readAll files with
    | none => none
    | some tables =>
      if tables.any (fun t => t.hasTransactionId) then
        match normalizeRows (dropDuplicates (tables.flatMap (fun t => t.rows))) with
        | none => none
        | some recs => some (processRecords recs)
      else none

/-- The value of the risk-reward KPI: a Python float that may be inf. -/
inductive RRValue where
  | val (q : ℚ)
  | inf
deriving DecidableEq, Repr

/-- The dictionary calculate_kpis returns (app.py lines 131-137). -/
structure KPIs where
  win_rate : ℚ
  risk_reward : RRValue
  max_drawdown : ℚ
  avg_holding_time : ℚ
  total_profit : ℚ
deriving DecidableEq, Repr

/-- Arithmetic mean of a rational list (pandas Series.mean on nonempty
input; on empty input the 0/0 = 0 value is never used by the source). -/
def listMean (l : List ℚ) : ℚ :=
  l.sum / (l.length : ℚ)

/-- Running cumulative sum with an accumulator. -/
def cumsumAux (acc : ℚ) : List ℚ → List ℚ
  | [] => []
  | x :: xs => (acc + x) :: cumsumAux (acc + x) xs

/-- pandas Series.cumsum. -/
def cumsum (l : List ℚ) : List ℚ :=
  cumsumAux 0 l

/-- Running maximum with an accumulator. -/
def cummaxAux (m : ℚ) : List ℚ → List ℚ
  | [] => []
  | x :: xs => (max m x) :: cummaxAux (max m x) xs

/-- pandas Series.cummax. -/
def cummax : List ℚ → List ℚ
  | [] => []
  | x :: xs => cummaxAux x (x :: xs)

/-- pandas Series.min on a nonempty series (the empty case is unreachable
in the source: calculate_kpis returns early on empty input). -/
def listMin : List ℚ → ℚ
  | [] => 0
  | x :: xs => xs.foldl min x

/-- win_trades = df[df profit > 0] (app.py line 103). -/
def win_trades (df : List RoundTripTrade) : List RoundTripTrade :=
  df.filter (fun t => 0 < t.profit)

/-- loss_trades = df[df profit < 0] (app.py line 104). -/
def loss_trades (df : List RoundTripTrade) : List RoundTripTrade :=
  df.filter (fun t => t.profit < 0)

/-- win_rate (app.py line 107). -/
def winRateCalc (df : List RoundTripTrade) : ℚ :=
  if 0 < df.length then (((win_trades df).length : ℚ) / (df.length : ℚ)) * 100
  else 0

/-- avg_profit (app.py line 110). -/
def avgProfitCalc (df : List RoundTripTrade) : ℚ :=
  if 0 < (win_trades df).length
  then listMean ((win_trades df).map (fun t => t.profit)) else 0

/-- avg_loss (app.py line 111). -/
def avgLossCalc (df : List RoundTripTrade) : ℚ :=
  if 0 < (loss_trades df).length
  then listMean ((loss_trades df).map (fun t => t.profit)) else 0

/-- risk_reward (app.py lines 113-116). -/
def riskRewardCalc (df : List RoundTripTrade) : RRValue :=
  if avgLossCalc df = 0 then RRValue.inf
  else RRValue.val (avgProfitCalc df / |avgLossCalc df|)

/-- cumulative_profit of the exit-time-sorted table (app.py lines 119-120). -/
def cumulativeProfitCalc (df : List RoundTripTrade) : List ℚ :=
  cumsum ((sortByExitTime df).map (fun t => t.profit))

/-- drawdown = cumulative_profit - running_max (app.py lines 121-122). -/
def drawdownCalc (df : List RoundTripTrade) : List ℚ :=
  List.zipWith (fun a b => a - b) (cumulativeProfitCalc df)
    (cummax (cumulativeProfitCalc df))

/-- max_drawdown = drawdown.min() (app.py line 123). -/
def maxDrawdownCalc (df : List RoundTripTrade) : ℚ :=
  listMin (drawdownCalc df)

/-- calculate_kpis (app.py lines 95-137): absent result on an empty table,
otherwise win rate, risk/reward (inf when the mean loss is 0), max
drawdown over the exit-time-sorted cumulative profit, average holding
time and total profit. -/
def calculate_kpis (df : List RoundTripTrade) : Option KPIs :=
  if df.length = 0 then none
  else
    some { win_rate := winRateCalc df
           risk_reward := riskRewardCalc df
           max_drawdown := maxDrawdownCalc df
           avg_holding_time := listMean (df.map (fun t => (t.holding_time : ℚ)))
           total_profit := (df.map (fun t => t.profit)).sum }

/-- The transaction ids known after dropDuplicatesAux has walked a row
list; used to reason about deduplicating concatenated batches. -/
def ddSeen (seen : List String) : List RawRow → List String
  | [] => seen
  | r :: rs =>
    if r.transaction_id ∈ seen then ddSeen seen rs
    else ddSeen (r.transaction_id :: seen) rs

/-- Spec-side formula: the cumulative sum of profits at position i is the
sum of the first i+1 profits. -/
def specPrefixSum (p : List ℚ) (i : Nat) : ℚ :=
  (p.take (i + 1)).sum

/-- Spec-side formula: the running maximum at position i is the maximum of
the cumulative sums at positions 0..i. -/
def specRunningMax (p : List ℚ) (i : Nat) : ℚ :=
  ((List.range (i + 1)).map (specPrefixSum p)).foldl max (specPrefixSum p 0)

/-- Spec-side formula: drawdown at position i is the cumulative sum minus
the running maximum there. -/
def specDrawdown (p : List ℚ) (i : Nat) : ℚ :=
  specPrefixSum p i - specRunningMax p i

/-- Spec-side formula: max drawdown is the minimum of the drawdown series
over all positions. -/
def specMaxDrawdown (p : List ℚ) : ℚ :=
  ((List.range p.length).map (specDrawdown p)).foldl min (specDrawdown p 0)

/-! Concrete sample inputs used to instantiate the theorems. -/

/-- A sample opening row. -/
def sampleOpen (id t : String) : RawRow :=
  { transaction_id := id, linked_transaction_id := "", kind := "新規",
    executed_at := t, instrument := "USD/JPY", side := "買",
    quantity := "1,000", realized_profit := "-" }

/-- A sample closing row. -/
def sampleClose (id link t p : String) : RawRow :=
  { transaction_id := id, linked_transaction_id := link, kind := "決済",
    executed_at := t, instrument := "USD/JPY", side := "売",
    quantity := "1,000", realized_profit := p }

/-- A source whose exit times arrive out of order. -/
def orderSampleSource : FileSource :=
  { utf8 := some
      { hasTransactionId := true
        rows := [sampleOpen "1" "2024-01-05 09:00:00",
                 sampleClose "2" "1" "2024-01-05 10:00:00" "1,500",
                 sampleOpen "3" "2024-01-02 09:00:00",
                 sampleClose "4" "3" "2024-01-02 10:00:00" "-300"] }
    cp932 := none }

/-- The trade table the pipeline produces for orderSampleSource. -/
def orderSampleOut : List RoundTripTrade :=
  (load_and_process_data [orderSampleSource]).getD []

/-- A source containing a duplicated close row. -/
def dupSampleSource : FileSource :=
  { utf8 := some
      { hasTransactionId := true
        rows := [sampleOpen "1" "2024-01-05 09:00:00",
                 sampleClose "2" "1" "2024-01-05 10:00:00" "1,500",
                 sampleClose "2" "1" "2024-01-05 10:00:00" "1,500",
                 sampleClose "4" "1" "2024-01-05 11:00:00" "-300"] }
    cp932 := none }

/-- The trade table the pipeline produces for dupSampleSource. -/
def dupSampleOut : List RoundTripTrade :=
  (load_and_process_data [dupSampleSource]).getD []

/-- A source that decodes under no supported encoding. -/
def unreadableSource : FileSource :=
  { utf8 := none, cp932 := none }

/-- A readable source whose table lacks the 取引番号 column. -/
def noColumnSource : FileSource :=
  { utf8 := some
      { hasTransactionId := false
        rows := [sampleOpen "1" "2024-01-05 09:00:00"] }
    cp932 := none }

/-- A readable source with an unparseable 約定日時 value. -/
def badTimeSource : FileSource :=
  { utf8 := some
      { hasTransactionId := true
        rows := [sampleOpen "1" "not a timestamp"] }
    cp932 := none }

/-- A raw row whose numeric fields are non-numeric placeholders. -/
def malformedNumericRow : RawRow :=
  { transaction_id := "1", linked_transaction_id := "", kind := "新規",
    executed_at := "2024-01-02 03:04:05", instrument := "USD/JPY", side := "買",
    quantity := "-", realized_profit := "***" }

/-- A sample already-normalized record. -/
def sampleRecord (id link kind : String) (t : Nat) (p : ℚ) : Record :=
  { transaction_id := id, linked_transaction_id := link, kind := kind,
    executed_at := t, instrument := "USD/JPY", side := "買",
    quantity := 1, realized_profit := p }

/-- Two opens and two closes, exactly one close referencing an open. -/
def joinSampleRecords : List Record :=
  [sampleRecord "1" "" "新規" 10 0,
   sampleRecord "3" "" "新規" 20 0,
   sampleRecord "2" "1" "決済" 30 1500,
   sampleRecord "4" "9" "決済" 40 200]

/-- A sample round-trip trade with a given profit and exit time. -/
def sampleTrade (p : ℚ) (t : Nat) : RoundTripTrade :=
  { exit_transaction_id := "x", entry_transaction_id := "y",
    exit_time := t, entry_time := 0, holding_time := (t : Int),
    profit := p, month := (2024, 1), pair := "USD/JPY", side := "買",
    quantity := 1 }

/-- Trades with profits 100, -50, -30, 80 in exit-time order. -/
def drawdownSampleTrades : List RoundTripTrade :=
  [sampleTrade 100 1, sampleTrade (-50) 2, sampleTrade (-30) 3, sampleTrade 80 4]

/-- Trades with wins 100, 200 and one loss -50. -/
def riskRewardSampleTrades : List RoundTripTrade :=
  [sampleTrade 100 1, sampleTrade 200 2, sampleTrade (-50) 3]

/-! ### Helper lemmas -/

theorem readAll_eq_none_of_mem (files : List FileSource) (f : FileSource)
    (hf : f ∈ files) (h : readSource f = none) : readAll files = none := by
  induction files with
  | nil => cases hf
  | cons g gs ih =>
    rcases List.mem_cons.mp hf with rfl | hmem
    · simp only [readAll, h]
    · simp only [readAll, ih hmem]
      cases readSource g <;> rfl

theorem normalizeRows_eq_none_of_mem (l : List RawRow) (r : RawRow)
    (hr : r ∈ l) (h : parseTimestamp r.executed_at = none) :
    normalizeRows l = none := by
  induction l with
  | nil => cases hr
  | cons a as ih =>
    rcases List.mem_cons.mp hr with rfl | hmem
    · simp only [normalizeRows, normalizeRow, h]
    · simp only [normalizeRows, ih hmem]
      cases normalizeRow a <;> rfl

/-! ### Claim theorems -/

/-- C10: calling the pipeline with an empty sequence of sources returns
the absent result, the same value used for fatal failures. -/
theorem C10_empty_upload_returns_none : load_and_process_data [] = none := rfl

/-- C2 counterexample: on the empty trade set, calculate_kpis does not
return any summary at all, contradicting the claimed sentinel summary. -/
theorem C2_empty_kpis_counterexample :
    ¬ ∃ k, calculate_kpis ([] : List RoundTripTrade) = some k := by
  rintro ⟨k, hk⟩
  have h : calculate_kpis ([] : List RoundTripTrade) = none := rfl
  rw [h] at hk
  cases hk

/-- C2 (amended): on the empty trade set the KPI engine returns the absent
result rather than a sentinel summary. -/
theorem C2_empty_kpis_returns_none :
    calculate_kpis ([] : List RoundTripTrade) = none := rfl

/-- C7: normalization of a numeric field strips commas and parses a signed
decimal; a value that fails to parse becomes exactly 0, and no numeric
field can make row normalization fail (only the timestamp can). -/
theorem C7_numeric_coercion (r : RawRow)
    (h : (parseTimestamp r.executed_at).isSome) :
    ∃ rec, normalizeRow r = some rec ∧
      rec.quantity = (parseSignedRat (stripCommas r.quantity)).getD 0 ∧
      rec.realized_profit = (parseSignedRat (stripCommas r.realized_profit)).getD 0 ∧
      (parseSignedRat (stripCommas r.quantity) = none → rec.quantity = 0) ∧
      (parseSignedRat (stripCommas r.realized_profit) = none →
        rec.realized_profit = 0) := by
  cases ht : parseTimestamp r.executed_at with
  | none => rw [ht] at h; cases h
  | some t =>
    simp only [normalizeRow, ht]
    refine ⟨_, rfl, rfl, rfl, ?_, ?_⟩
    · intro hq
      simp only [coerceNumeric, hq, Option.getD_none]
    · intro hp
      simp only [coerceNumeric, hp, Option.getD_none]

/-- C7 witness: a row with placeholder numeric fields normalizes, and both
fields become 0. -/
theorem C7_numeric_coercion_witness :
    (parseTimestamp malformedNumericRow.executed_at).isSome = true ∧
    (∃ rec, normalizeRow malformedNumericRow = some rec ∧
      rec.quantity = 0 ∧ rec.realized_profit = 0) := by
  refine ⟨by decide, ?_⟩
  obtain ⟨rec, h1, _, _, h4, h5⟩ :=
    C7_numeric_coercion malformedNumericRow (by decide)
  exact ⟨rec, h1, h4 (by decide), h5 (by decide)⟩

/-- C8: each fatal condition (a source undecodable under both encodings, a
missing 取引番号 column, an unparseable timestamp among the deduplicated
rows) makes the whole pipeline return the absent result, never a partial
table. -/
theorem C8_fatal_conditions_abort :
    (∀ files f, f ∈ files → readSource f = none →
       load_and_process_data files = none) ∧
    (∀ files tables, readAll files = some tables →
       tables.any (fun t => t.hasTransactionId) = false →
       load_and_process_data files = none) ∧
    (∀ files tables r, readAll files = some tables →
       r ∈ dropDuplicates (tables.flatMap (fun t => t.rows)) →
       parseTimestamp r.executed_at = none →
       load_and_process_data files = none) := by
  refine ⟨?_, ?_, ?_⟩
  · intro files f hf h
    by_cases he : files = []
    · subst he; rfl
    · simp only [load_and_process_data, if_neg he,
        readAll_eq_none_of_mem files f hf h]
  · intro files tables hr ha
    by_cases he : files = []
    · subst he; rfl
    · simp only [load_and_process_data, if_neg he, hr, ha]
      rfl
  · intro files tables r hr hmem hts
    by_cases he : files = []
    · subst he; rfl
    · have hnorm := normalizeRows_eq_none_of_mem _ r hmem hts
      simp only [load_and_process_data, if_neg he, hr, hnorm]
      split <;> rfl

/-- C8 witness: the three fatal conditions on concrete sources. -/
theorem C8_fatal_conditions_abort_witness :
    load_and_process_data [unreadableSource] = none ∧
    load_and_process_data [noColumnSource] = none ∧
    load_and_process_data [badTimeSource] = none := by
  obtain ⟨h1, h2, h3⟩ := C8_fatal_conditions_abort
  refine ⟨h1 [unreadableSource] unreadableSource (by decide) (by decide),
    h2 [noColumnSource]
      [{ hasTransactionId := false
         rows := [sampleOpen "1" "2024-01-05 09:00:00"] }] (by decide) (by decide),
    h3 [badTimeSource]
      [{ hasTransactionId := true
         rows := [sampleOpen "1" "not a timestamp"] }]
      (sampleOpen "1" "not a timestamp") (by decide) (by decide) (by decide)⟩

theorem dropDuplicatesAux_append (l r : List RawRow) (seen : List String) :
    dropDuplicatesAux seen (l ++ r)
      = dropDuplicatesAux seen l ++ dropDuplicatesAux (ddSeen seen l) r := by
  induction l generalizing seen with
  | nil => rfl
  | cons a as ih =>
    by_cases h : a.transaction_id ∈ seen
    · simp only [List.cons_append, dropDuplicatesAux, ddSeen, if_pos h]
      exact ih seen
    · simp only [List.cons_append, dropDuplicatesAux, ddSeen, if_neg h]
      exact congrArg (List.cons a) (ih _)

theorem mem_ddSeen (l : List RawRow) (seen : List String) (x : String) :
    x ∈ ddSeen seen l ↔ x ∈ seen ∨ x ∈ l.map (fun r => r.transaction_id) := by
  induction l generalizing seen with
  | nil => simp [ddSeen]
  | cons a as ih =>
    by_cases h : a.transaction_id ∈ seen
    · simp only [ddSeen, if_pos h, ih, List.map_cons, List.mem_cons]
      constructor
      · tauto
      · rintro (hx | rfl | hx)
        · exact Or.inl hx
        · exact Or.inl h
        · exact Or.inr hx
    · simp only [ddSeen, if_neg h, ih, List.map_cons, List.mem_cons]
      tauto

theorem dropDuplicatesAux_eq_nil : ∀ (r : List RawRow) (seen : List String),
    (∀ x ∈ r, x.transaction_id ∈ seen) → dropDuplicatesAux seen r = []
  | [], _, _ => rfl
  | a :: as, seen, h => by
    simp only [dropDuplicatesAux, if_pos (h a (List.mem_cons_self a as))]
    exact dropDuplicatesAux_eq_nil as seen
      (fun x hx => h x (List.mem_cons_of_mem a hx))

theorem dropDuplicates_append_self (l : List RawRow) :
    dropDuplicates (l ++ l) = dropDuplicates l := by
  have h : dropDuplicatesAux (ddSeen [] l) l = [] :=
    dropDuplicatesAux_eq_nil l _ (fun x hx =>
      (mem_ddSeen l [] x.transaction_id).mpr
        (Or.inr (List.mem_map_of_mem _ hx)))
  rw [dropDuplicates, dropDuplicatesAux_append, h, List.append_nil]
  rfl

/-- C5: loading the same source twice yields the same round-trip trade
table as loading it once: deduplication keeps only the first-encountered
row of each transaction id, so re-uploading never double-counts. -/
theorem C5_reload_idempotent (f : FileSource) :
    load_and_process_data [f, f] = load_and_process_data [f] := by
  cases hs : readSource f with
  | none =>
    have h2 : readAll [f, f] = none := by simp only [readAll, hs]
    have h1 : readAll [f] = none := by simp only [readAll, hs]
    simp only [load_and_process_data, h1, h2, if_neg (List.cons_ne_nil _ _)]
  | some t =>
    have h2 : readAll [f, f] = some [t, t] := by simp only [readAll, hs]
    have h1 : readAll [f] = some [t] := by simp only [readAll, hs]
    simp only [load_and_process_data, h1, h2, if_neg (List.cons_ne_nil _ _),
      List.any_cons, List.any_nil, Bool.or_false, Bool.or_self,
      List.flatMap_cons, List.flatMap_nil, List.append_nil,
      dropDuplicates_append_self]

theorem load_inversion (files : List FileSource) (t : List RoundTripTrade)
    (h : load_and_process_data files = some t) :
    ∃ tables recs, readAll files = some tables ∧
      normalizeRows (dropDuplicates (tables.flatMap (fun tb => tb.rows)))
        = some recs ∧
      t = processRecords recs := by
  by_cases he : files = []
  · rw [he] at h; cases h
  · simp only [load_and_process_data, if_neg he] at h
    cases hr : readAll files with
    | none => rw [hr] at h; cases h
    | some tables =>
      simp only [hr] at h
      cases ha : tables.any (fun tb => tb.hasTransactionId) with
      | false => simp [ha] at h
      | true =>
        simp only [ha, if_true] at h
        cases hn : normalizeRows
            (dropDuplicates (tables.flatMap (fun tb => tb.rows))) with
        | none => simp [hn] at h
        | some recs =>
          simp only [hn, Option.some.injEq] at h
          exact ⟨tables, recs, rfl, hn, h.symm⟩

/-- C6: every round-trip trade table the pipeline returns is sorted
non-decreasing in exit time. -/
theorem C6_output_sorted_by_exit_time (files : List FileSource)
    (t : List RoundTripTrade) (h : load_and_process_data files = some t) :
    List.Pairwise (fun a b => a.exit_time ≤ b.exit_time) t := by
  obtain ⟨tables, recs, -, -, rfl⟩ := load_inversion files t h
  exact List.sorted_insertionSort exitTimeLe (matchTrades recs)

/-- C6 witness: a concrete upload whose trades arrive out of exit-time
order still produces a sorted table. -/
theorem C6_output_sorted_by_exit_time_witness :
    List.Pairwise (fun a b : RoundTripTrade => a.exit_time ≤ b.exit_time)
      orderSampleOut := by
  have h : load_and_process_data [orderSampleSource] = some orderSampleOut := by
    decide
  exact C6_output_sorted_by_exit_time [orderSampleSource] orderSampleOut h

theorem mem_matchTrades (rs : List Record) (t : RoundTripTrade)
    (h : t ∈ matchTrades rs) :
    ∃ e ∈ exitRecords rs, ∃ o ∈ entryRecords rs,
      o.transaction_id = e.linked_transaction_id ∧ t = mkTrade e o := by
  simp only [matchTrades, List.mem_flatMap, List.mem_map, List.mem_filter] at h
  obtain ⟨e, he, o, ⟨ho, hoe⟩, rfl⟩ := h
  exact ⟨e, he, o, ho, by simpa using hoe, rfl⟩

theorem length_filter_txid (l : List Record) (x : String)
    (h : (l.map (fun r => r.transaction_id)).Nodup) :
    (l.filter (fun o => o.transaction_id == x)).length
      = if l.any (fun o => o.transaction_id == x) then 1 else 0 := by
  induction l with
  | nil => rfl
  | cons a t ih =>
    rw [List.map_cons, List.nodup_cons] at h
    cases hax : (a.transaction_id == x) with
    | true =>
      have hax' : a.transaction_id = x := by simpa using hax
      have ht : t.filter (fun o => o.transaction_id == x) = [] := by
        rw [List.filter_eq_nil_iff]
        intro o ho hx
        have hox : o.transaction_id = a.transaction_id := by
          have h1 : o.transaction_id = x := by simpa using hx
          rw [h1, hax']
        refine h.1 ?_
        rw [← hox]
        exact List.mem_map_of_mem _ ho
      simp [List.filter_cons, List.any_cons, hax, ht]
    | false =>
      simp [List.filter_cons, List.any_cons, hax, ih h.2]

theorem matchTrades_length (rs : List Record)
    (hent : ((entryRecords rs).map (fun r => r.transaction_id)).Nodup) :
    (matchTrades rs).length
      = (exitRecords rs).countP
          (fun e => (entryRecords rs).any
            (fun o => o.transaction_id == e.linked_transaction_id)) := by
  simp only [matchTrades]
  induction exitRecords rs with
  | nil => rfl
  | cons e es ih =>
    rw [List.flatMap_cons, List.length_append, List.length_map,
        length_filter_txid _ _ hent, List.countP_cons, ih]
    cases he : (entryRecords rs).any
        (fun o => o.transaction_id == e.linked_transaction_id) <;>
      simp [he, Nat.add_comm]

/-- C1: on a deduplicated, normalized input, the matcher output has
exactly one row per close that references an existing open, that row's
profit is the close's realized profit, and unmatched closes and opens
contribute no row. -/
theorem C1_join_correctness (rs : List Record)
    (h : (rs.map (fun r => r.transaction_id)).Nodup) :
    (processRecords rs).length
      = (exitRecords rs).countP
          (fun e => (entryRecords rs).any
            (fun o => o.transaction_id == e.linked_transaction_id)) ∧
    (∀ t ∈ processRecords rs, ∃ e ∈ exitRecords rs,
        t.exit_transaction_id = e.transaction_id ∧
        t.profit = e.realized_profit ∧
        ∃ o ∈ entryRecords rs, o.transaction_id = e.linked_transaction_id) ∧
    (∀ e ∈ exitRecords rs,
        (entryRecords rs).any
          (fun o => o.transaction_id == e.linked_transaction_id) = false →
        ∀ t ∈ processRecords rs, t.exit_transaction_id ≠ e.transaction_id) ∧
    (∀ o ∈ entryRecords rs,
        (exitRecords rs).any
          (fun e => e.linked_transaction_id == o.transaction_id) = false →
        ∀ t ∈ processRecords rs, t.entry_transaction_id ≠ o.transaction_id) := by
  have hes : ((exitRecords rs).map (fun r => r.transaction_id)).Nodup :=
    List.Nodup.sublist ((List.filter_sublist rs).map _) h
  have hent : ((entryRecords rs).map (fun r => r.transaction_id)).Nodup :=
    List.Nodup.sublist ((List.filter_sublist rs).map _) h
  have hmem : ∀ t, t ∈ processRecords rs ↔ t ∈ matchTrades rs := fun t =>
    (List.perm_insertionSort exitTimeLe (matchTrades rs)).mem_iff
  refine ⟨?_, ?_, ?_, ?_⟩
  · rw [processRecords, sortByExitTime, List.length_insertionSort]
    exact matchTrades_length rs hent
  · intro t ht
    obtain ⟨e, he, o, ho, hoe, rfl⟩ := mem_matchTrades rs t ((hmem t).mp ht)
    exact ⟨e, he, rfl, rfl, o, ho, hoe⟩
  · intro e he hnone t ht hexit
    obtain ⟨e1, he1, o1, ho1, hoe1, rfl⟩ := mem_matchTrades rs t ((hmem t).mp ht)
    have hee : e1 = e :=
      List.inj_on_of_nodup_map hes he1 he hexit
    subst hee
    have : (entryRecords rs).any
        (fun o => o.transaction_id == e1.linked_transaction_id) = true :=
      List.any_eq_true.mpr ⟨o1, ho1, by simpa using hoe1⟩
    rw [this] at hnone
    cases hnone
  · intro o ho hnone t ht hentry
    obtain ⟨e1, he1, o1, ho1, hoe1, rfl⟩ := mem_matchTrades rs t ((hmem t).mp ht)
    have hoo : o1 = o :=
      List.inj_on_of_nodup_map hent ho1 ho hentry
    subst hoo
    have : (exitRecords rs).any
        (fun e => e.linked_transaction_id == o1.transaction_id) = true :=
      List.any_eq_true.mpr ⟨e1, he1, by simpa using hoe1.symm⟩
    rw [this] at hnone
    cases hnone

/-- C1 witness: two opens and two closes where exactly one close
references an existing open produce exactly one output row. -/
theorem C1_join_correctness_witness :
    ((joinSampleRecords.map (fun r => r.transaction_id)).Nodup) ∧
    (processRecords joinSampleRecords).length = 1 := by
  refine ⟨by decide, ?_⟩
  rw [(C1_join_correctness joinSampleRecords (by decide)).1]
  decide

theorem ddAux_nodup : ∀ (l : List RawRow) (seen : List String),
    (((dropDuplicatesAux seen l).map (fun r => r.transaction_id)).Nodup) ∧
    (∀ x ∈ dropDuplicatesAux seen l, x.transaction_id ∉ seen)
  | [], _ => ⟨List.nodup_nil, by intro x hx; cases hx⟩
  | a :: as, seen => by
    by_cases h : a.transaction_id ∈ seen
    · simp only [dropDuplicatesAux, if_pos h]
      exact ddAux_nodup as seen
    · simp only [dropDuplicatesAux, if_neg h]
      obtain ⟨ih1, ih2⟩ := ddAux_nodup as (a.transaction_id :: seen)
      constructor
      · rw [List.map_cons, List.nodup_cons]
        refine ⟨?_, ih1⟩
        intro hmem
        obtain ⟨y, hy, hxy⟩ := List.mem_map.mp hmem
        refine ih2 y hy ?_
        rw [hxy]
        exact List.mem_cons_self _ _
      · intro x hx
        rcases List.mem_cons.mp hx with rfl | hx1
        · exact h
        · intro hxs
          exact ih2 x hx1 (List.mem_cons_of_mem _ hxs)

theorem normalizeRow_txid (r : RawRow) (a : Record)
    (h : normalizeRow r = some a) : a.transaction_id = r.transaction_id := by
  simp only [normalizeRow] at h
  cases hts : parseTimestamp r.executed_at with
  | none => rw [hts] at h; cases h
  | some t => rw [hts] at h; cases h; rfl

theorem normalizeRows_map_txid : ∀ (l : List RawRow) (recs : List Record),
    normalizeRows l = some recs →
    recs.map (fun r => r.transaction_id) = l.map (fun r => r.transaction_id)
  | [], recs, h => by
    cases h; rfl
  | r :: rs, recs, h => by
    simp only [normalizeRows] at h
    cases hr : normalizeRow r with
    | none => rw [hr] at h; cases h
    | some a =>
      rw [hr] at h
      cases hrs : normalizeRows rs with
      | none => rw [hrs] at h; cases h
      | some l =>
        rw [hrs] at h
        cases h
        rw [List.map_cons, List.map_cons, normalizeRows_map_txid rs l hrs,
            normalizeRow_txid r a hr]

theorem countP_matchBlock_eq_zero (entries : List Record) (e : Record)
    (x : String) (hex : e.transaction_id ≠ x) :
    (((entries.filter
        (fun o => o.transaction_id == e.linked_transaction_id)).map
        (fun o => mkTrade e o)).countP
      (fun tr => tr.exit_transaction_id == x)) = 0 := by
  rw [List.countP_eq_zero]
  intro tr htr
  obtain ⟨o, ho, rfl⟩ := List.mem_map.mp htr
  simpa [mkTrade] using hex

theorem countP_flatMap_exit_zero (es entries : List Record) (x : String)
    (h : ∀ e ∈ es, e.transaction_id ≠ x) :
    ((es.flatMap (fun e => (entries.filter
        (fun o => o.transaction_id == e.linked_transaction_id)).map
        (fun o => mkTrade e o))).countP
      (fun tr => tr.exit_transaction_id == x)) = 0 := by
  induction es with
  | nil => rfl
  | cons e es ih =>
    rw [List.flatMap_cons, List.countP_append,
        countP_matchBlock_eq_zero entries e x (h e (List.mem_cons_self _ _)),
        ih (fun a ha => h a (List.mem_cons_of_mem _ ha))]

theorem countP_flatMap_exit_le_one (es entries : List Record) (x : String)
    (hes : ((es.map (fun r => r.transaction_id)).Nodup))
    (hent : ((entries.map (fun r => r.transaction_id)).Nodup)) :
    ((es.flatMap (fun e => (entries.filter
        (fun o => o.transaction_id == e.linked_transaction_id)).map
        (fun o => mkTrade e o))).countP
      (fun tr => tr.exit_transaction_id == x)) ≤ 1 := by
  induction es with
  | nil => exact Nat.zero_le 1
  | cons e es ih =>
    rw [List.map_cons, List.nodup_cons] at hes
    rw [List.flatMap_cons, List.countP_append]
    by_cases hex : e.transaction_id = x
    · have h0 : ((es.flatMap (fun e => (entries.filter
          (fun o => o.transaction_id == e.linked_transaction_id)).map
          (fun o => mkTrade e o))).countP
            (fun tr => tr.exit_transaction_id == x)) = 0 := by
        refine countP_flatMap_exit_zero es entries x ?_
        intro a ha hax
        refine hes.1 ?_
        rw [hex, ← hax]
        exact List.mem_map_of_mem _ ha
      have hA : (((entries.filter
          (fun o => o.transaction_id == e.linked_transaction_id)).map
          (fun o => mkTrade e o)).countP
            (fun tr => tr.exit_transaction_id == x)) ≤ 1 := by
        calc _ ≤ ((entries.filter
            (fun o => o.transaction_id == e.linked_transaction_id)).map
            (fun o => mkTrade e o)).length := List.countP_le_length _
        _ = (entries.filter
            (fun o => o.transaction_id == e.linked_transaction_id)).length :=
          List.length_map _ _
        _ ≤ 1 := by
          rw [length_filter_txid entries e.linked_transaction_id hent]
          split <;> omega
      omega
    · rw [countP_matchBlock_eq_zero entries e x hex, Nat.zero_add]
      exact ih hes.2

/-- C9: because deduplication makes transaction ids unique before
matching, every pipeline output contains at most one row per close
transaction id. -/
theorem C9_at_most_one_row_per_close (files : List FileSource)
    (t : List RoundTripTrade) (h : load_and_process_data files = some t)
    (x : String) :
    t.countP (fun tr => tr.exit_transaction_id == x) ≤ 1 := by
  obtain ⟨tables, recs, -, hn, rfl⟩ := load_inversion files t h
  have hrecs : (recs.map (fun r => r.transaction_id)).Nodup := by
    rw [normalizeRows_map_txid _ recs hn]
    exact (ddAux_nodup (tables.flatMap (fun tb => tb.rows)) []).1
  have hes : ((exitRecords recs).map (fun r => r.transaction_id)).Nodup :=
    List.Nodup.sublist ((List.filter_sublist recs).map _) hrecs
  have hent : ((entryRecords recs).map (fun r => r.transaction_id)).Nodup :=
    List.Nodup.sublist ((List.filter_sublist recs).map _) hrecs
  rw [processRecords, sortByExitTime,
      (List.perm_insertionSort exitTimeLe (matchTrades recs)).countP_eq]
  exact countP_flatMap_exit_le_one (exitRecords recs) (entryRecords recs)
    x hes hent

/-- C9 witness: an upload with a duplicated close row still produces at
most one row for that close id. -/
theorem C9_at_most_one_row_per_close_witness :
    dupSampleOut.countP (fun tr => tr.exit_transaction_id == "2") ≤ 1 := by
  have h : load_and_process_data [dupSampleSource] = some dupSampleOut := by
    decide
  exact C9_at_most_one_row_per_close [dupSampleSource] dupSampleOut h "2"

theorem sum_neg_of_all_neg : ∀ (l : List ℚ), l ≠ [] → (∀ x ∈ l, x < 0) →
    l.sum < 0
  | [], h, _ => absurd rfl h
  | [a], _, hneg => by simpa using hneg a (List.mem_cons_self _ _)
  | a :: b :: u, _, hneg => by
    have h1 := sum_neg_of_all_neg (b :: u) (List.cons_ne_nil _ _)
      (fun x hx => hneg x (List.mem_cons_of_mem _ hx))
    have h2 := hneg a (List.mem_cons_self _ _)
    rw [List.sum_cons]
    linarith

theorem listMean_neg (l : List ℚ) (h : l ≠ []) (hneg : ∀ x ∈ l, x < 0) :
    listMean l < 0 := by
  have hs := sum_neg_of_all_neg l h hneg
  have hl : (0 : ℚ) < (l.length : ℚ) := by
    exact_mod_cast List.length_pos.mpr h
  exact div_neg_of_neg_of_pos hs hl

theorem loss_trades_profit_neg (ts : List RoundTripTrade) :
    ∀ t ∈ loss_trades ts, t.profit < 0 := by
  intro t ht
  simp only [loss_trades, List.mem_filter] at ht
  simpa using ht.2

/-- C4: the risk/reward ratio is the mean winning profit over the absolute
mean losing profit; with no losing trades it is infinity (this branch wins
even when there are also no winners), and with no winners but some losers
it is 0. -/
theorem C4_risk_reward_ratio (ts : List RoundTripTrade) (h : ts ≠ []) :
    ∃ k, calculate_kpis ts = some k ∧
      (loss_trades ts = [] → k.risk_reward = RRValue.inf) ∧
      (win_trades ts = [] → loss_trades ts ≠ [] →
        k.risk_reward = RRValue.val 0) ∧
      (loss_trades ts ≠ [] →
        k.risk_reward = RRValue.val
          (listMean ((win_trades ts).map (fun t => t.profit)) /
            |listMean ((loss_trades ts).map (fun t => t.profit))|)) := by
  have hlen : ¬ (ts.length = 0) := by
    simpa [List.length_eq_zero] using h
  have hk : calculate_kpis ts = some
      { win_rate := winRateCalc ts
        risk_reward := riskRewardCalc ts
        max_drawdown := maxDrawdownCalc ts
        avg_holding_time := listMean (ts.map (fun t => (t.holding_time : ℚ)))
        total_profit := (ts.map (fun t => t.profit)).sum } := by
    simp [calculate_kpis, hlen]
  have hpp : avgProfitCalc ts
      = listMean ((win_trades ts).map (fun t => t.profit)) := by
    by_cases hw : 0 < (win_trades ts).length
    · simp only [avgProfitCalc, if_pos hw]
    · have hnil : win_trades ts = [] :=
        List.length_eq_zero.mp (Nat.eq_zero_of_not_pos hw)
      simp only [avgProfitCalc, if_neg hw, hnil, List.map_nil]
      simp [listMean]
  have hgen : loss_trades ts ≠ [] → riskRewardCalc ts
      = RRValue.val (listMean ((win_trades ts).map (fun t => t.profit)) /
          |listMean ((loss_trades ts).map (fun t => t.profit))|) := by
    intro hl
    have hlpos : 0 < (loss_trades ts).length := List.length_pos.mpr hl
    have hml : listMean ((loss_trades ts).map (fun t => t.profit)) < 0 := by
      apply listMean_neg
      · simpa using hl
      · intro x hx
        obtain ⟨t, ht, rfl⟩ := List.mem_map.mp hx
        exact loss_trades_profit_neg ts t ht
    have ha : avgLossCalc ts
        = listMean ((loss_trades ts).map (fun t => t.profit)) := by
      simp only [avgLossCalc, if_pos hlpos]
    have hane : ¬ (avgLossCalc ts = 0) := by
      rw [ha]
      exact ne_of_lt hml
    show riskRewardCalc ts = _
    simp only [riskRewardCalc, ha, hpp]
    rw [if_neg (ne_of_lt hml)]
  refine ⟨_, hk, ?_, ?_, hgen⟩
  · intro hl
    have ha : avgLossCalc ts = 0 := by
      simp only [avgLossCalc, hl]
      simp
    show riskRewardCalc ts = RRValue.inf
    simp only [riskRewardCalc, if_pos ha]
  · intro hw hl
    have := hgen hl
    rw [hw] at this
    show riskRewardCalc ts = RRValue.val 0
    rw [this]
    simp [listMean]

/-- C4 witness: wins 100 and 200 with one loss -50 give ratio 3. -/
theorem C4_risk_reward_ratio_witness :
    ∃ k, calculate_kpis riskRewardSampleTrades = some k ∧
      k.risk_reward = RRValue.val 3 := by
  obtain ⟨k, hk, -, -, h3⟩ :=
    C4_risk_reward_ratio riskRewardSampleTrades (by decide)
  refine ⟨k, hk, ?_⟩
  rw [h3 (by decide)]
  have h1 : win_trades riskRewardSampleTrades
      = [sampleTrade 100 1, sampleTrade 200 2] := by decide
  have h2 : loss_trades riskRewardSampleTrades = [sampleTrade (-50) 3] := by
    decide
  have h4 : listMean (List.map (fun t => t.profit)
      [sampleTrade 100 1, sampleTrade 200 2]) = 150 := by
    norm_num [listMean, sampleTrade]
  have h5 : listMean (List.map (fun t => t.profit)
      [sampleTrade (-50) 3]) = -50 := by
    norm_num [listMean, sampleTrade]
  rw [h1, h2, h4, h5, abs_of_neg (by norm_num : (-50 : ℚ) < 0), neg_neg]
  have h6 : (150 : ℚ) / 50 = 3 := by norm_num
  rw [h6]

theorem cumsumAux_length (l : List ℚ) (acc : ℚ) :
    (cumsumAux acc l).length = l.length := by
  induction l generalizing acc with
  | nil => rfl
  | cons x xs ih => simp [cumsumAux, ih]

theorem cumsum_length (l : List ℚ) : (cumsum l).length = l.length :=
  cumsumAux_length l 0

theorem cummaxAux_length (l : List ℚ) (m : ℚ) :
    (cummaxAux m l).length = l.length := by
  induction l generalizing m with
  | nil => rfl
  | cons x xs ih => simp [cummaxAux, ih]

theorem cummax_length (l : List ℚ) : (cummax l).length = l.length := by
  cases l with
  | nil => rfl
  | cons x xs => simp [cummax, cummaxAux, cummaxAux_length]

theorem cumsumAux_getElem? : ∀ (l : List ℚ) (acc : ℚ) (i : Nat),
    i < l.length → (cumsumAux acc l)[i]? = some (acc + (l.take (i + 1)).sum)
  | [], _, i, h => absurd h (by simp)
  | x :: xs, acc, 0, _ => by
    simp [cumsumAux]
  | x :: xs, acc, i + 1, h => by
    have h1 : i < xs.length := by simpa using h
    simp only [cumsumAux, List.getElem?_cons_succ]
    rw [cumsumAux_getElem? xs (acc + x) i h1]
    simp [add_assoc]

theorem cummaxAux_getElem? : ∀ (l : List ℚ) (m : ℚ) (i : Nat),
    i < l.length → (cummaxAux m l)[i]? = some ((l.take (i + 1)).foldl max m)
  | [], _, i, h => absurd h (by simp)
  | x :: xs, m, 0, _ => by
    simp [cummaxAux]
  | x :: xs, m, i + 1, h => by
    have h1 : i < xs.length := by simpa using h
    simp only [cummaxAux, List.getElem?_cons_succ]
    rw [cummaxAux_getElem? xs (max m x) i h1]
    simp

theorem take_eq_range_map : ∀ (q : List ℚ) (i : Nat), i ≤ q.length →
    q.take i = (List.range i).map (fun j => q.getD j 0)
  | _, 0, _ => by simp
  | [], i + 1, h => by simp at h
  | x :: xs, i + 1, h => by
    have h1 : i ≤ xs.length := by simpa using h
    rw [List.take_succ_cons, List.range_succ_eq_map, List.map_cons]
    congr 1
    rw [take_eq_range_map xs i h1, List.map_map]
    exact List.map_congr_left (fun a _ => by simp)

theorem cumsum_getD (p : List ℚ) (j : Nat) (h : j < p.length) :
    (cumsum p).getD j 0 = specPrefixSum p j := by
  rw [List.getD_eq_getElem?_getD, cumsum, cumsumAux_getElem? p 0 j h]
  simp [specPrefixSum]

theorem cumsum_getElem? (p : List ℚ) (i : Nat) (h : i < p.length) :
    (cumsum p)[i]? = some (specPrefixSum p i) := by
  rw [cumsum, cumsumAux_getElem? p 0 i h]
  simp [specPrefixSum]

theorem cummax_cumsum_getElem? (p : List ℚ) (i : Nat) (h : i < p.length) :
    (cummax (cumsum p))[i]? = some (specRunningMax p i) := by
  cases cq : cumsum p with
  | nil =>
    have hl := cumsum_length p
    rw [cq] at hl
    simp at hl
    omega
  | cons c cs =>
    have hlen : (c :: cs).length = p.length := by rw [← cq, cumsum_length]
    rw [cummax, cummaxAux_getElem? (c :: cs) c i (by omega)]
    congr 1
    have h0 : c = specPrefixSum p 0 := by
      have h00 := cumsum_getD p 0 (by omega)
      rw [cq] at h00
      simpa using h00
    rw [← cq, take_eq_range_map (cumsum p) (i + 1) (by rw [cumsum_length]; omega),
        specRunningMax, h0]
    congr 1
    apply List.map_congr_left
    intro j hj
    exact cumsum_getD p j (by have := List.mem_range.mp hj; omega)

theorem drawdown_eq_range_map (p : List ℚ) :
    List.zipWith (fun a b => a - b) (cumsum p) (cummax (cumsum p))
      = (List.range p.length).map (specDrawdown p) := by
  apply List.ext_getElem?
  intro i
  by_cases hi : i < p.length
  · rw [List.getElem?_zipWith, cumsum_getElem? p i hi,
        cummax_cumsum_getElem? p i hi]
    rw [List.getElem?_map, List.getElem?_range hi]
    rfl
  · rw [List.getElem?_eq_none, List.getElem?_eq_none]
    · rw [List.length_map, List.length_range]; omega
    · rw [List.length_zipWith, cumsum_length, cummax_length, cumsum_length]
      omega

theorem listMin_range_map (n : Nat) (h : n ≠ 0) (g : Nat → ℚ) :
    listMin ((List.range n).map g) = ((List.range n).map g).foldl min (g 0) := by
  cases n with
  | zero => cases h rfl
  | succ m =>
    rw [List.range_succ_eq_map, List.map_cons]
    simp [listMin, List.foldl_cons, min_self]

theorem maxDrawdown_eq_spec (ts : List RoundTripTrade) (h : ts ≠ []) :
    maxDrawdownCalc ts
      = specMaxDrawdown ((sortByExitTime ts).map (fun t => t.profit)) := by
  have hplen : ((sortByExitTime ts).map (fun t => t.profit)).length
      = ts.length := by
    rw [List.length_map, sortByExitTime, List.length_insertionSort]
  have hn : ((sortByExitTime ts).map (fun t => t.profit)).length ≠ 0 := by
    rw [hplen]
    simpa [List.length_eq_zero] using h
  simp only [maxDrawdownCalc, drawdownCalc, cumulativeProfitCalc]
  rw [drawdown_eq_range_map, listMin_range_map _ hn, specMaxDrawdown]

/-- C3: max drawdown equals the minimum over positions of the cumulative
profit sum (in exit-time order) minus its running maximum. -/
theorem C3_max_drawdown (ts : List RoundTripTrade) (h : ts ≠ []) :
    ∃ k, calculate_kpis ts = some k ∧
      k.max_drawdown
        = specMaxDrawdown ((sortByExitTime ts).map (fun t => t.profit)) := by
  have hlen : ¬ (ts.length = 0) := by simpa [List.length_eq_zero] using h
  have hk : calculate_kpis ts = some
      { win_rate := winRateCalc ts
        risk_reward := riskRewardCalc ts
        max_drawdown := maxDrawdownCalc ts
        avg_holding_time := listMean (ts.map (fun t => (t.holding_time : ℚ)))
        total_profit := (ts.map (fun t => t.profit)).sum } := by
    simp [calculate_kpis, hlen]
  exact ⟨_, hk, maxDrawdown_eq_spec ts h⟩

/-- C3 witness: profits 100, -50, -30, 80 in exit-time order give max
drawdown -80. -/
theorem C3_max_drawdown_witness :
    (∃ k, calculate_kpis drawdownSampleTrades = some k ∧
       k.max_drawdown = specMaxDrawdown
         ((sortByExitTime drawdownSampleTrades).map (fun t => t.profit))) ∧
    specMaxDrawdown
      ((sortByExitTime drawdownSampleTrades).map (fun t => t.profit)) = -80 := by
  refine ⟨C3_max_drawdown drawdownSampleTrades (by decide), ?_⟩
  have hp : (sortByExitTime drawdownSampleTrades).map (fun t => t.profit)
      = [100, -50, -30, 80] := by decide
  rw [hp]
  norm_num [specMaxDrawdown, specDrawdown, specRunningMax, specPrefixSum,
    listMin, List.range_succ, min_def, max_def]

end FxApp
